import Mathlib

/-!
Shallow embedding of the filter/aggregation/selection engine of
`src/final_project.py` (a pandas/streamlit pub-explorer app).

A pandas DataFrame row is modelled as a `Record`; textual columns read from
the spreadsheet may be missing (pandas `NaN`), hence `Option String`.
The numeric coordinate columns are never inspected by any property below,
so they are modelled as integers.
-/

/-- One row of the loaded DataFrame (`load_data`, lines 20-31): columns
`fsa_id, name, address, postcode, easting, northing, latitude, longitude,
local_authority`.  After `load_data`, `latitude`/`longitude` are present
(rows with missing coordinates are dropped); every other column may hold
a missing value (`NaN`), modelled as `none`. -/
structure Record where
  fsa_id : Nat
  name : Option String
  address : Option String
  postcode : Option String
  easting : Option Int
  northing : Option Int
  latitude : Int
  longitude : Int
  local_authority : Option String
deriving DecidableEq, Repr

/-- Builds a record fixing the fields no claim depends on. -/
def mkRec (name pc la : Option String) : Record :=
  ⟨0, name, none, pc, none, none, 0, 0, la⟩

/-- Models one character comparison of Python `re.search` with
`re.IGNORECASE` (pandas `str.contains(pat, case=False)`, line 52), on the
fragment of patterns built from literal characters and the `.` wildcard:
`.` matches every character except newline; any other pattern character
matches case-insensitively.  Other regex metacharacters are outside the
modelled fragment; theorems whose truth depends on the pattern constrain
it to this fragment. -/
def charMatches (p c : Char) : Bool :=
  (p == '.' && !(c == Char.ofNat 10)) || p.toLower == c.toLower

/-- Pattern `p` matches a prefix of `s` (regex-fragment semantics). -/
def matchHere : List Char → List Char → Bool
  | [], _ => true
  | _ :: _, [] => false
  | p :: ps, c :: cs => charMatches p c && matchHere ps cs

/-- Python `re.search`: the pattern matches starting at some position of
`s`.  This is the match used by `str.contains(trimmed_query, case=False)`
at line 52 (pandas treats the query as a regular expression). -/
def reSearch (p : List Char) : List Char → Bool
  | [] => matchHere p []
  | c :: cs => matchHere p (c :: cs) || reSearch p cs

/-- Case-insensitive prefix test on raw character lists (spec-side
notion, used to compare the code's regex match with the spec's words). -/
def isPrefixCI : List Char → List Char → Bool
  | [], _ => true
  | _ :: _, [] => false
  | p :: ps, c :: cs => p.toLower == c.toLower && isPrefixCI ps cs

/-- Modelled from the spec: "keep a record iff the record's `name`
contains the trimmed query as a substring, case-insensitively" — plain
case-insensitive substring containment, the spec's words for the name
filter (the code instead performs a regex search). -/
def substrCI : List Char → List Char → Bool
  | p, [] => isPrefixCI p []
  | p, c :: cs => isPrefixCI p (c :: cs) || substrCI p cs

/-- The characters that carry special meaning in a Python regular
expression; a query avoiding them is matched literally. -/
def regexMeta : List Char :=
  ['.', '^', '$', '*', '+', '?', Char.ofNat 123, Char.ofNat 125,
   '[', ']', '\\', '|', '(', ')']

/-- A pattern inside the literal fragment: no regex metacharacter. -/
def isLiteralPat (p : List Char) : Prop := ∀ c ∈ p, c ∉ regexMeta

instance (p : List Char) : Decidable (isLiteralPat p) := by
  unfold isLiteralPat; infer_instance

/-- Characters removed by Python `str.strip()` (ASCII whitespace: space,
tab, linefeed, vertical tab, formfeed, carriage return). -/
def pyWhitespace (c : Char) : Bool :=
  (c == ' ') || (c == Char.ofNat 9) || (c == Char.ofNat 10) ||
  (c == Char.ofNat 11) || (c == Char.ofNat 12) || (c == Char.ofNat 13)

/-- Python `str.strip()` on a character list: drop whitespace from both
ends (line 51: `trimmed_query = name_query.strip()`). -/
def stripList (l : List Char) : List Char :=
  ((l.dropWhile pyWhitespace).reverse.dropWhile pyWhitespace).reverse

/-- Python `str.strip()` on strings. -/
def pyStrip (s : String) : String := ⟨stripList s.data⟩

/-- Line 49: `filtered_data['local_authority'].isin(authorities)`; a
missing authority is never a member (pandas `isin` is false on `NaN`). -/
def regionPred (authorities : List String) (r : Record) : Bool :=
  match r.local_authority with
  | some a => authorities.contains a
  | none => false

/-- Line 52: `filtered_data['name'].str.contains(pat, case=False,
na=False)`; `na=False` makes a missing name a non-match. -/
def namePred (pat : String) (r : Record) : Bool :=
  match r.name with
  | some n => reSearch pat.data n.data
  | none => false

/-- Line 54: `filtered_data['postcode'] == postal_code`, exact equality;
a missing postcode never equals a string. -/
def postPred (pc : String) (r : Record) : Bool := r.postcode == some pc

/-- Lines 48-49: the region step runs only when the list is non-empty and
lacks the `"All"` sentinel. -/
def regionStep (data : List Record) (authorities : List String) : List Record :=
  if authorities ≠ [] ∧ "All" ∉ authorities then data.filter (regionPred authorities)
  else data

/-- Lines 50-52: the name step runs when `name_query` is truthy (non-empty
as given, before trimming), and filters by the trimmed query. -/
def nameStep (data : List Record) (name_query : String) : List Record :=
  if name_query ≠ "" then data.filter (namePred (pyStrip name_query))
  else data

/-- Lines 53-54: the postcode step runs unless the sentinel is chosen. -/
def postalStep (data : List Record) (postal_code : String) : List Record :=
  if postal_code ≠ "All" then data.filter (postPred postal_code)
  else data

/-- Function `apply_filters` (lines 35-55): sequential conjunction of the
region, name and postcode steps on a copy of the data. -/
def apply_filters (data : List Record) (authorities : List String)
    (name_query : String) (postal_code : String) : List Record :=
  postalStep (nameStep (regionStep data authorities) name_query) postal_code

/-! ## Aggregation engine (`display_bar_chart` line 98, `display_top_cities` line 109) -/

/-- How many records of `R` carry region `a`
(one term of `value_counts` on the `local_authority` column). -/
def countRegion (R : List Record) (a : String) : Nat :=
  R.countP (fun r => r.local_authority == some a)

/-- Distinct elements of a string list, keeping the first occurrence of
each (the key order a pandas hash table produces). -/
def firstDedup : List String → List String
  | [] => []
  | a :: l => a :: (firstDedup l).filter (fun b => !(b == a))

/-- The distinct regions present in `R`, first occurrence first; records
with a missing region contribute nothing (`value_counts` drops `NaN`
keys). -/
def presentRegions (R : List Record) : List String :=
  firstDedup (R.filterMap (fun r => r.local_authority))

/-- Descending-count order on `(region, count)` pairs. -/
def countGe (x y : String × Nat) : Prop := y.2 ≤ x.2

instance : DecidableRel countGe := fun x y => inferInstanceAs (Decidable (y.2 ≤ x.2))

instance : IsTotal (String × Nat) countGe := ⟨fun a b => Nat.le_total b.2 a.2⟩

instance : IsTrans (String × Nat) countGe := ⟨fun _ _ _ h1 h2 => Nat.le_trans h2 h1⟩

/-- Models `data['local_authority'].value_counts()` (line 98): one
`(region, count)` pair per distinct present region, by descending count.
pandas sorts with its default kind, whose order among equal counts is
implementation-defined; the stable insertion sort here fixes
first-occurrence order for ties, and no theorem below depends on that
choice. -/
def value_counts (R : List Record) : List (String × Nat) :=
  List.insertionSort countGe ((presentRegions R).map (fun a => (a, countRegion R a)))

/-- Models `Series.nlargest(n)` (line 109): the `n` largest entries in
descending order, earlier entries preferred on ties (`keep='first'`). -/
def nlargest (n : Nat) (s : List (String × Nat)) : List (String × Nat) :=
  (List.insertionSort countGe s).take n

/-- Models `data['local_authority'].value_counts().nlargest(10)` (line
109), with the count `n` as a parameter. -/
def top_n (R : List Record) (n : Nat) : List (String × Nat) :=
  nlargest n (value_counts R)

/-! ## Projection/sort engine (`display_sorted_pubs`, lines 119-128) -/

/-- The failure raised when the name column holds a missing value while
computing lengths: `len(nan)` raises `TypeError` at line 122, the spec's
`MissingAttribute` condition. -/
inductive SortErr
  | missingAttribute
deriving DecidableEq, Repr

/-- The caller-visible state of the DataFrame passed to
`display_sorted_pubs`: its rows plus the `name_length` column, present
only after the function assigns it at line 122. -/
structure PubFrame where
  rows : List Record
  name_length : Option (List Nat)
deriving DecidableEq, Repr

/-- Models `data['name'].apply(len)` (line 122): the per-row name length,
or the `MissingAttribute` failure if any row's name is missing. -/
def nameLengths : List Record → Except SortErr (List Nat)
  | [] => .ok []
  | r :: rs =>
    match r.name with
    | none => .error .missingAttribute
    | some s => (nameLengths rs).map (fun ls => s.length :: ls)

/-- Ascending order on records paired with their name length. -/
def lenLe (x y : Record × Nat) : Prop := x.2 ≤ y.2

instance : DecidableRel lenLe := fun x y => inferInstanceAs (Decidable (x.2 ≤ y.2))

/-- Models `data.sort_values(by='name_length', ascending=True)` (line
124): rows reordered by ascending name length.  pandas' default sort kind is
`quicksort`, which does not guarantee the order of rows with equal
lengths; the stable insertion sort here is a deterministic stand-in for
that implementation-defined order, and no theorem below depends on it. -/
def sortRowsByLen (rows : List Record) (lens : List Nat) : List Record :=
  (List.insertionSort lenLe (rows.zip lens)).map Prod.fst

/-- Function `display_sorted_pubs` (lines 119-128).  Returns the caller-visible
frame after the call together with the displayed row sequence, or the
failure raised while computing lengths.  On non-empty data the function
assigns the scratch column into its argument (line 122) before sorting,
so the returned frame carries `name_length`; the displayed sequence is
the sorted rows (line 126 projects four columns for display). -/
def display_sorted_pubs (df : PubFrame) : Except SortErr (PubFrame × List Record) :=
  if df.rows = [] then .ok (df, [])
  else
    match nameLengths df.rows with
    | .error e => .error e
    | .ok lens => .ok (⟨df.rows, some lens⟩, sortRowsByLen df.rows lens)

/-! ## Saved-selection store (`main`, lines 160-164) -/

/-- Lines 163-164: a save appends the candidate to
`st.session_state.saved_pubs` unless it is the `'None'` sentinel. -/
def save (sel : List String) (cand : String) : List String :=
  if cand = "None" then sel else sel ++ [cand]

/-! ## Concrete records (the spec's §8 scenario data and edge cases) -/

def recOx : Record := mkRec (some "Ox") (some "N1") (some "Camden")
def recRedLion : Record := mkRec (some "Red Lion") (some "N1") (some "Camden")
def recCrown : Record := mkRec (some "The Crown") (some "W1") (some "Soho")
def recNoName : Record := mkRec none (some "N1") (some "Camden")
def recNoRegion : Record := mkRec (some "Ox") (some "N1") none

/-! ## Helper lemmas -/

lemma reSearch_nil (s : List Char) : reSearch [] s = true := by
  cases s <;> rfl

lemma charMatches_literal {p : Char} (hp : p ∉ regexMeta) (c : Char) :
    charMatches p c = (p.toLower == c.toLower) := by
  have hdot : (p == '.') = false := by
    refine beq_eq_false_iff_ne.mpr fun h => hp ?_
    rw [h]; exact List.mem_cons_self _ _
  simp [charMatches, hdot]

lemma matchHere_literal {p : List Char} (hp : isLiteralPat p) :
    ∀ s, matchHere p s = isPrefixCI p s := by
  induction p with
  | nil => intro s; cases s <;> rfl
  | cons a ps ih =>
    intro s
    have ha : a ∉ regexMeta := hp a (List.mem_cons_self a ps)
    have hps : isLiteralPat ps := fun c hc => hp c (List.mem_cons_of_mem a hc)
    cases s with
    | nil => rfl
    | cons c cs =>
      simp only [matchHere, isPrefixCI, charMatches_literal ha, ih hps]

lemma reSearch_literal {p : List Char} (hp : isLiteralPat p) :
    ∀ s, reSearch p s = substrCI p s := by
  intro s
  induction s with
  | nil => simp only [reSearch, substrCI, matchHere_literal hp]
  | cons c cs ih => simp only [reSearch, substrCI, matchHere_literal hp, ih]

lemma nameLengths_error {rows : List Record} {r : Record} (hr : r ∈ rows)
    (hname : r.name = none) :
    nameLengths rows = .error .missingAttribute := by
  induction rows with
  | nil => cases hr
  | cons x rs ih =>
    cases hx : x.name with
    | none => simp [nameLengths, hx]
    | some s =>
      have hrs : r ∈ rs := by
        rcases List.mem_cons.mp hr with h | h
        · rw [← h, hname] at hx; cases hx
        · exact h
      simp [nameLengths, hx, ih hrs, Except.map]

lemma foldl_save_append (names : List String) (h : ∀ c ∈ names, c ≠ "None") :
    ∀ acc, List.foldl save acc names = acc ++ names := by
  induction names with
  | nil => intro acc; simp
  | cons c cs ih =>
    intro acc
    have hc : c ≠ "None" := h c (List.mem_cons_self c cs)
    have hcs : ∀ x ∈ cs, x ≠ "None" := fun x hx => h x (List.mem_cons_of_mem c hx)
    have hsave : save acc c = acc ++ [c] := by unfold save; rw [if_neg hc]
    simp only [List.foldl_cons, hsave, ih hcs, List.append_assoc, List.singleton_append]

lemma sum_map_const_zero (K : List String) : (K.map (fun _ => (0 : Nat))).sum = 0 := by
  induction K with
  | nil => rfl
  | cons a K ih => simp [ih]

lemma sum_map_add_distrib (K : List String) (f g : String → Nat) :
    (K.map (fun a => f a + g a)).sum = (K.map f).sum + (K.map g).sum := by
  induction K with
  | nil => rfl
  | cons a K ih => simp [ih]; omega

lemma sum_map_indicator_zero {K : List String} {b : String} (hb : b ∉ K) :
    (K.map (fun a => if b = a then (1 : Nat) else 0)).sum = 0 := by
  induction K with
  | nil => rfl
  | cons k K ih =>
    have hbk : b ≠ k := fun h => hb (h ▸ List.mem_cons_self k K)
    have hK : b ∉ K := fun h => hb (List.mem_cons_of_mem k h)
    simp [ih hK, hbk]

lemma sum_map_indicator {K : List String} {b : String} (hK : K.Nodup) (hb : b ∈ K) :
    (K.map (fun a => if b = a then (1 : Nat) else 0)).sum = 1 := by
  induction K with
  | nil => cases hb
  | cons k K ih =>
    rcases List.nodup_cons.mp hK with ⟨hknot, hKnd⟩
    rcases List.mem_cons.mp hb with h | h
    · subst h
      simp [sum_map_indicator_zero hknot]
    · have hbk : b ≠ k := fun hkb => hknot (hkb ▸ h)
      simp [ih hKnd h, hbk]

lemma countRegion_cons (r : Record) (R : List Record) (a : String) :
    countRegion (r :: R) a
      = countRegion R a + (if (r.local_authority == some a) then 1 else 0) := by
  unfold countRegion
  rw [List.countP_cons]

lemma sum_countRegion (K : List String) (hK : K.Nodup) :
    ∀ R : List Record, (∀ r ∈ R, ∀ b, r.local_authority = some b → b ∈ K) →
    (K.map (fun a => countRegion R a)).sum
      = (R.filter (fun r => r.local_authority.isSome)).length := by
  intro R
  induction R with
  | nil => intro _; simp [countRegion, sum_map_const_zero]
  | cons r R ih =>
    intro hcov
    have hcov' : ∀ x ∈ R, ∀ b, x.local_authority = some b → b ∈ K :=
      fun x hx => hcov x (List.mem_cons_of_mem r hx)
    simp only [countRegion_cons, sum_map_add_distrib, ih hcov', List.filter_cons]
    cases hla : r.local_authority with
    | none => simp [sum_map_const_zero]
    | some b =>
      have hbK : b ∈ K := hcov r (List.mem_cons_self r R) b hla
      simp [beq_iff_eq, sum_map_indicator hK hbK]

lemma nodup_firstDedup (l : List String) : (firstDedup l).Nodup := by
  induction l with
  | nil => exact List.nodup_nil
  | cons a l ih =>
    refine List.nodup_cons.mpr ⟨?_, ih.filter _⟩
    intro hmem
    have := (List.mem_filter.mp hmem).2
    simp at this

lemma mem_firstDedup {l : List String} {b : String} : b ∈ firstDedup l ↔ b ∈ l := by
  induction l with
  | nil => simp [firstDedup]
  | cons a l ih =>
    by_cases hba : b = a
    · subst hba; simp [firstDedup]
    · simp [firstDedup, List.mem_filter, ih, hba]

lemma region_mem_presentRegions {R : List Record} {r : Record} {b : String}
    (hr : r ∈ R) (hb : r.local_authority = some b) : b ∈ presentRegions R := by
  unfold presentRegions
  rw [mem_firstDedup]
  exact List.mem_filterMap.mpr ⟨r, hr, hb⟩

lemma value_counts_perm (R : List Record) :
    List.Perm (value_counts R) ((presentRegions R).map (fun a => (a, countRegion R a))) :=
  List.perm_insertionSort countGe _

/-! ## Claim theorems -/

/-- Claim C5: for every record sequence and every criteria, the output of
`apply_filters` is a subsequence of the input — every output record
occurs in the input, none is duplicated or mutated, and relative order is
preserved. -/
theorem apply_filters_sublist (R : List Record) (auths : List String) (q pc : String) :
    (apply_filters R auths q pc).Sublist R := by
  have h1 : (regionStep R auths).Sublist R := by
    unfold regionStep; split
    · exact List.filter_sublist R
    · exact List.Sublist.refl R
  have h2 : (nameStep (regionStep R auths) q).Sublist (regionStep R auths) := by
    unfold nameStep; split
    · exact List.filter_sublist _
    · exact List.Sublist.refl _
  have h3 : (postalStep (nameStep (regionStep R auths) q) pc).Sublist
      (nameStep (regionStep R auths) q) := by
    unfold postalStep; split
    · exact List.filter_sublist _
    · exact List.Sublist.refl _
  exact h3.trans (h2.trans h1)

/-- Claim C3 counterexample: with an empty region list, the `"All"`
postal sentinel and the whitespace-only query `" "` (which trims to the
empty string), a sequence holding one record with a missing name is not
returned unchanged: the truthy query turns the name filter on and
`na=False` drops the nameless record. -/
theorem apply_filters_unconstrained_cex :
    apply_filters [recNoName] [] " " "All" ≠ [recNoName] := by decide

/-- Claim C3 (amended): `apply_filters` is the identity under an empty
region list (or one containing `"All"`) and the `"All"` postal sentinel
provided the name query is the empty string, or trims to the empty
string while every record's name is present.  (A query that is non-empty
but trims to empty drops records with a missing name.) -/
theorem apply_filters_unconstrained (R : List Record) (auths : List String) (q : String)
    (hA : auths = [] ∨ "All" ∈ auths)
    (hq : q = "" ∨ (pyStrip q = "" ∧ ∀ r ∈ R, r.name ≠ none)) :
    apply_filters R auths q "All" = R := by
  have hregion : regionStep R auths = R := by
    unfold regionStep
    rcases hA with h | h
    · rw [if_neg]; intro hc; exact hc.1 h
    · rw [if_neg]; intro hc; exact hc.2 h
  have hname : nameStep R q = R := by
    unfold nameStep
    rcases hq with h | ⟨hs, hn⟩
    · rw [if_neg]; intro hc; exact hc h
    · by_cases hq0 : q = ""
      · rw [if_neg]; intro hc; exact hc hq0
      · rw [if_pos hq0, hs]
        refine List.filter_eq_self.mpr fun r hr => ?_
        cases hcase : r.name with
        | none => exact absurd hcase (hn r hr)
        | some n =>
          show namePred "" r = true
          simp only [namePred, hcase]
          exact reSearch_nil n.data
  unfold apply_filters
  rw [hregion, hname]
  unfold postalStep
  rw [if_neg (fun h => h rfl)]

/-- Claim C3 witness: a concrete unconstrained call (whitespace-only
query, all names present) returning its input unchanged. -/
theorem apply_filters_unconstrained_witness :
    apply_filters [recOx, recCrown] [] " " "All" = [recOx, recCrown] :=
  apply_filters_unconstrained [recOx, recCrown] [] " " (Or.inl rfl)
    (Or.inr ⟨by decide, by decide⟩)

/-- Claim C4 counterexample: the code hands the trimmed query to a
regular-expression search, so the query `"."` keeps the record named
`"Ox"` even though `"Ox"` does not contain `"."` as a substring
(case-insensitively) — the claim's "keeps exactly the substring
matches" fails at this input. -/
theorem apply_filters_name_substring_cex :
    apply_filters [recOx] [] "." "All" = [recOx] ∧
    substrCI (pyStrip ".").data "Ox".data = false :=
  ⟨by decide, by decide⟩

/-- Claim C4 (amended): for every record sequence and every query whose
trimmed value is non-empty and contains no regular-expression
metacharacter, `apply_filters` keeps exactly the records whose name
contains the trimmed query as a substring, case-insensitively; records
with a missing name never match and no error is raised. -/
theorem apply_filters_name_substring (R : List Record) (q : String)
    (hne : pyStrip q ≠ "") (hlit : isLiteralPat (pyStrip q).data) :
    apply_filters R [] q "All"
      = R.filter (fun r =>
          match r.name with
          | some n => substrCI (pyStrip q).data n.data
          | none => false) := by
  have hq0 : q ≠ "" := fun h => hne (by rw [h]; rfl)
  have hregion : regionStep R [] = R := by
    unfold regionStep; rw [if_neg]; intro hc; exact hc.1 rfl
  have hname : nameStep R q
      = R.filter (fun r =>
          match r.name with
          | some n => substrCI (pyStrip q).data n.data
          | none => false) := by
    unfold nameStep
    rw [if_pos hq0]
    refine List.filter_congr fun r _ => ?_
    cases hcase : r.name with
    | none => simp [namePred, hcase]
    | some n => simp only [namePred, hcase, reSearch_literal hlit]
  unfold apply_filters
  rw [hregion, hname]
  unfold postalStep
  rw [if_neg (fun h => h rfl)]

/-- Claim C4 witness: the spec's scenario — query `"red"` keeps exactly
`"Red Lion"` (case-insensitive substring match). -/
theorem apply_filters_name_substring_witness :
    pyStrip "red" ≠ "" ∧ isLiteralPat (pyStrip "red").data ∧
    apply_filters [recRedLion, recOx, recCrown] [] "red" "All"
      = List.filter (fun r =>
          match r.name with
          | some n => substrCI (pyStrip "red").data n.data
          | none => false) [recRedLion, recOx, recCrown] :=
  ⟨by decide, by decide,
   apply_filters_name_substring [recRedLion, recOx, recCrown] "red" (by decide) (by decide)⟩

/-- Claim C1: refuted — `display_sorted_pubs` mutates its argument.  On
a one-record frame the call succeeds but the caller-visible frame now
carries the `name_length` column assigned at line 122, so the input
after the call differs from what was passed in. -/
theorem sorted_pubs_mutates_input :
    display_sorted_pubs ⟨[recOx], none⟩ = .ok (⟨[recOx], some [2]⟩, [recOx]) ∧
    (⟨[recOx], some [2]⟩ : PubFrame) ≠ ⟨[recOx], none⟩ :=
  ⟨rfl, by decide⟩

/-- Claim C6: on any frame containing a record with a missing name,
`display_sorted_pubs` fails with the `MissingAttribute` condition
(`len(nan)` raises at line 122); no default length is substituted and no
ordering is produced. -/
theorem display_sorted_missing (df : PubFrame) (r : Record) (hr : r ∈ df.rows)
    (hname : r.name = none) :
    display_sorted_pubs df = .error .missingAttribute := by
  have hne : df.rows ≠ [] := List.ne_nil_of_mem hr
  unfold display_sorted_pubs
  rw [if_neg hne, nameLengths_error hr hname]

/-- Claim C6 witness: a concrete frame with a nameless record fails. -/
theorem display_sorted_missing_witness :
    display_sorted_pubs ⟨[recNoName], none⟩ = .error .missingAttribute :=
  display_sorted_missing ⟨[recNoName], none⟩ recNoName (List.mem_cons_self recNoName []) rfl

/-- Claim C7 counterexample: `value_counts` drops missing keys, so on a
one-record sequence whose `local_authority` is missing the counts sum to
0, not to the sequence length 1. -/
theorem value_counts_missing_region_cex :
    ((value_counts [recNoRegion]).map Prod.snd).sum
      ≠ ([recNoRegion] : List Record).length := by decide

/-- Claim C7 (amended): the counts of `value_counts` sum to the number
of records whose region is present (hence to `len(R)` whenever every
record carries a region); no region appears twice; the empty sequence
yields an empty result — never an error and never a placeholder row. -/
theorem value_counts_sum_nodup (R : List Record) :
    ((value_counts R).map Prod.snd).sum
        = (R.filter (fun r => r.local_authority.isSome)).length ∧
    ((value_counts R).map Prod.fst).Nodup ∧
    value_counts [] = [] := by
  have hperm := value_counts_perm R
  refine ⟨?_, ?_, rfl⟩
  · rw [(hperm.map Prod.snd).sum_eq, List.map_map]
    have h2 : (Prod.snd ∘ fun a => (a, countRegion R a)) = fun a => countRegion R a := rfl
    rw [h2]
    exact sum_countRegion (presentRegions R) (nodup_firstDedup _) R
      (fun r hr b hb => region_mem_presentRegions hr hb)
  · have hfst : List.Perm ((value_counts R).map Prod.fst) (presentRegions R) := by
      have := hperm.map Prod.fst
      rwa [List.map_map, show (Prod.fst ∘ fun a => (a, countRegion R a)) = id from rfl,
        List.map_id] at this
    exact hfst.nodup_iff.mpr (nodup_firstDedup _)

/-- Claim C8: `top_n` returns at most `min n (number of distinct present
regions)` pairs, every returned count dominates the count of every
region not returned, and each returned pair carries the true count of
its region. -/
theorem top_n_spec (R : List Record) (n : Nat) :
    (top_n R n).length ≤ min n (presentRegions R).length ∧
    (∀ p ∈ top_n R n, ∀ q ∈ value_counts R, q ∉ top_n R n → q.2 ≤ p.2) ∧
    (∀ q ∈ value_counts R, q.2 = countRegion R q.1) := by
  have hsorted : List.Sorted countGe (value_counts R) :=
    List.sorted_insertionSort countGe _
  have htop : top_n R n = (value_counts R).take n := by
    unfold top_n nlargest
    rw [hsorted.insertionSort_eq]
  have hlen : (value_counts R).length = (presentRegions R).length := by
    rw [(value_counts_perm R).length_eq, List.length_map]
  refine ⟨?_, ?_, ?_⟩
  · rw [htop, List.length_take, hlen]
  · intro p hp q hq hqn
    rw [htop] at hp hqn
    have hq' : q ∈ (value_counts R).take n ++ (value_counts R).drop n := by
      rw [List.take_append_drop]; exact hq
    have hqd : q ∈ (value_counts R).drop n := by
      rcases List.mem_append.mp hq' with h | h
      · exact absurd h hqn
      · exact h
    have hpw : List.Pairwise countGe ((value_counts R).take n ++ (value_counts R).drop n) := by
      rw [List.take_append_drop]; exact hsorted
    exact (List.pairwise_append.mp hpw).2.2 p hp q hqd
  · intro q hq
    rcases List.mem_map.mp ((value_counts_perm R).mem_iff.mp hq) with ⟨a, _, ha⟩
    rw [← ha]

/-- Claim C10: the grouped counts are produced in non-increasing count
order, and `top_n R 10` is exactly the first `min 10 (number of distinct
present regions)` entries of that ordering (on an already descending
series, `nlargest(10)` with its default `keep='first'` takes the head). -/
theorem value_counts_sorted_top10 (R : List Record) :
    List.Sorted countGe (value_counts R) ∧
    top_n R 10 = (value_counts R).take (min 10 (presentRegions R).length) := by
  have hsorted : List.Sorted countGe (value_counts R) :=
    List.sorted_insertionSort countGe _
  refine ⟨hsorted, ?_⟩
  unfold top_n nlargest
  rw [hsorted.insertionSort_eq]
  have hlen : (value_counts R).length = (presentRegions R).length := by
    rw [(value_counts_perm R).length_eq, List.length_map]
  rw [← hlen, ← List.take_take, List.take_length]

/-- Claim C9: `save` ignores the `'None'` sentinel (the selection, in
particular the empty one, is unchanged) and otherwise appends the
candidate unconditionally — no deduplication, no existence check — so k
saves of non-sentinel names yield exactly those k names in call order,
duplicates included. -/
theorem save_spec :
    (∀ sel, save sel "None" = sel) ∧
    (∀ sel cand, cand ≠ "None" → save sel cand = sel ++ [cand]) ∧
    (∀ names, (∀ c ∈ names, c ≠ "None") →
      List.foldl save [] names = names ∧ (List.foldl save [] names).length = names.length) := by
  refine ⟨fun sel => ?_, fun sel cand h => ?_, fun names h => ?_⟩
  · unfold save; rw [if_pos rfl]
  · unfold save; rw [if_neg h]
  · have h0 := foldl_save_append names h []
    rw [List.nil_append] at h0
    exact ⟨h0, by rw [h0]⟩

/-- Claim C9 witness: the spec's §8 scenario — saving the sentinel keeps
`Empty` empty; saving `"Ox"` twice keeps both copies in order. -/
theorem save_spec_witness :
    save [] "None" = [] ∧ save ["Ox"] "Ox" = ["Ox", "Ox"] ∧
    List.foldl save [] ["Ox", "Ox", "Red Lion"] = ["Ox", "Ox", "Red Lion"] :=
  ⟨save_spec.1 [], save_spec.2.1 ["Ox"] "Ox" (by decide),
   (save_spec.2.2 ["Ox", "Ox", "Red Lion"] (by decide)).1⟩

/-! ## Concrete scenario checks (spec §8) -/

example : apply_filters [recRedLion, recOx, recCrown] ["Camden"] "" "All" = [recRedLion, recOx] := by decide
example : apply_filters [recRedLion, recOx, recCrown] [] "red" "All" = [recRedLion] := by decide
example : apply_filters [recRedLion, recOx, recCrown] [] "" "W1" = [recCrown] := by decide
example : apply_filters [recNoName] [] " " "All" = [] := by decide
example : apply_filters [recOx] [] "." "All" = [recOx] := by decide
example : substrCI ".".data "Ox".data = false := by decide
example : value_counts [recRedLion, recOx, recCrown] = [("Camden", 2), ("Soho", 1)] := by decide
example : value_counts [recNoRegion] = [] := by decide
example : top_n [recRedLion, recOx, recCrown] 1 = [("Camden", 2)] := by decide
example : display_sorted_pubs ⟨[recOx], none⟩ = .ok (⟨[recOx], some [2]⟩, [recOx]) := rfl
example : display_sorted_pubs ⟨[recRedLion, recOx], none⟩
    = .ok (⟨[recRedLion, recOx], some [8, 2]⟩, [recOx, recRedLion]) := rfl
example : display_sorted_pubs ⟨[recNoName], none⟩ = .error .missingAttribute := rfl
example : List.foldl save [] ["Ox", "Ox"] = ["Ox", "Ox"] := by decide
